import Mathlib

/-!
Verification development for the resultsdb results-tracking API.

The data model and the operations below embed, in order:
* the data model of §3 of the design document (Testcase, Group, Result,
  ResultData),
* the submit-time parser and the result-creation endpoint of api v2.0
  (the parser and controller sources are not part of this tree, so these
  are modelled from the design document and from the behaviour asserted in
  `tests/functest_api_v20.py`),
* the filter/query engine and the latest-result resolver of §4.1–§4.3,
* the v3 `create_result` controller of `resultsdb/controllers/api_v3.py`.

Timestamps are naive-UTC; the query layer orders results by the pair
(`submit_time` in microseconds since the epoch, `id`).
-/

namespace ResultsDB

/-- Errors surfaced by the API: a validation failure carrying its message,
or a missing-entity lookup. -/
inductive Err where
  | validation (msg : String)
  | notFound (msg : String)
deriving DecidableEq, Repr

/-- One key/value attribute attached to a Result. -/
structure ResultData where
  key : String
  value : String
deriving DecidableEq, Repr

/-- A persisted test result row. `submitTime` is microseconds since the
Unix epoch (naive UTC); `groups` holds the uuids of the groups the result
belongs to; `data` holds its ResultData rows in insertion order. -/
structure Result where
  id : Nat
  testcase : String
  outcome : String
  submitTime : Nat
  note : Option String
  refUrl : Option String
  groups : List String
  data : List ResultData
deriving DecidableEq, Repr

/-- A testcase row: unique name, optional reference URL. -/
structure Testcase where
  name : String
  refUrl : Option String
deriving DecidableEq, Repr

/-- A group row: uuid primary key, optional description and URL. -/
structure Group where
  uuid : String
  description : Option String
  refUrl : Option String
deriving DecidableEq, Repr

/-- The persisted state: the four relations plus the auto-increment
counter for result ids. -/
structure DB where
  testcases : List Testcase
  groups : List Group
  results : List Result
  nextId : Nat
deriving DecidableEq, Repr

/-- A fresh database; result ids start at 1. -/
def emptyDB : DB := ⟨[], [], [], 1⟩

/-! ## Ordering of results

Per §4.2, results are ordered by `submit_time`, ties broken by `id`. -/

/-- `KeyLe a b` means `b` is at least as recent as `a` in the
(`submit_time`, `id`) lexicographic order. -/
def KeyLe (a b : Result) : Prop :=
  a.submitTime < b.submitTime ∨ (a.submitTime = b.submitTime ∧ a.id ≤ b.id)

instance (a b : Result) : Decidable (KeyLe a b) := by
  unfold KeyLe; exact inferInstance

theorem keyLe_refl (a : Result) : KeyLe a a := Or.inr ⟨rfl, Nat.le_refl _⟩

theorem keyLe_trans {a b c : Result} (h1 : KeyLe a b) (h2 : KeyLe b c) :
    KeyLe a c := by
  rcases h1 with h1 | ⟨e1, i1⟩ <;> rcases h2 with h2 | ⟨e2, i2⟩
  · exact Or.inl (Nat.lt_trans h1 h2)
  · exact Or.inl (e2 ▸ h1)
  · exact Or.inl (e1 ▸ h2)
  · exact Or.inr ⟨e1.trans e2, Nat.le_trans i1 i2⟩

theorem keyLe_total (a b : Result) : KeyLe a b ∨ KeyLe b a := by
  unfold KeyLe; omega

/-- Insert a result into a list sorted descending by (`submit_time`, `id`). -/
def insertDesc (r : Result) : List Result → List Result
  | [] => [r]
  | x :: xs => if KeyLe x r then r :: x :: xs else x :: insertDesc r xs

/-- Sort a result list descending by (`submit_time`, `id`): the default
output order of the query engine. -/
def sortDesc (rs : List Result) : List Result := rs.foldr insertDesc []

theorem insertDesc_perm (r : Result) (l : List Result) :
    List.Perm (insertDesc r l) (r :: l) := by
  induction l with
  | nil => exact List.Perm.refl _
  | cons x xs ih =>
    by_cases h : KeyLe x r
    · simp [insertDesc, h]
    · simp only [insertDesc, if_neg h]
      exact (ih.cons x).trans (List.Perm.swap r x xs)

theorem sortDesc_perm (rs : List Result) : List.Perm (sortDesc rs) rs := by
  induction rs with
  | nil => exact List.Perm.refl _
  | cons x xs ih =>
    exact (insertDesc_perm x (sortDesc xs)).trans (ih.cons x)

theorem mem_sortDesc {r : Result} {rs : List Result} :
    r ∈ sortDesc rs ↔ r ∈ rs :=
  (sortDesc_perm rs).mem_iff

/-! ## Filters (§4.1, §4.2)

Modelled from the spec: the filter parser and query builder sources are
not part of this tree. A comma-separated value list becomes the list of
values of one filter; within one filter the values are OR-ed, distinct
filters are AND-ed. -/

/-- A parsed filter predicate: outcome / testcase-name / group-membership
filters each carry the comma-separated value list; a result-data filter
carries the key and the value list; `since` carries the inclusive lower
bound and the optional exclusive upper bound. -/
inductive Filter where
  | outcome (vals : List String)
  | testcases (names : List String)
  | groups (uuids : List String)
  | dataEq (key : String) (vals : List String)
  | since (t1 : Nat) (t2 : Option Nat)
deriving DecidableEq, Repr

/-- Does a result satisfy one filter?  Within one filter, a value list is
an OR of exact matches; group and result-data filters match when any of
the result's rows matches any listed value. -/
def matchesFilter (r : Result) : Filter → Bool
  | .outcome vals => vals.contains r.outcome
  | .testcases names => names.contains r.testcase
  | .groups uuids => r.groups.any uuids.contains
  | .dataEq key vals => r.data.any fun d => d.key == key && vals.contains d.value
  | .since t1 t2 =>
    decide (t1 ≤ r.submitTime) &&
      match t2 with
      | none => true
      | some t => decide (r.submitTime < t)

/-- Distinct filters combine conjunctively. -/
def matchesAll (fs : List Filter) (r : Result) : Bool :=
  fs.all (matchesFilter r)

/-- The plain (non-latest) query: keep the results satisfying every
filter, ordered by `submit_time` descending, ties by `id` descending. -/
def queryResults (db : DB) (fs : List Filter) : List Result :=
  sortDesc (db.results.filter (matchesAll fs))

theorem mem_queryResults {db : DB} {fs : List Filter} {r : Result} :
    r ∈ queryResults db fs ↔ r ∈ db.results ∧ matchesAll fs r = true := by
  unfold queryResults
  rw [mem_sortDesc, List.mem_filter]

/-! ## Latest-result resolver (§4.3)

Modelled from the spec: the resolver source (the `DISTINCT ON` query of
the v2 controller) is not part of this tree. Results are partitioned by
(testcase, value of the `_distinct_on` result-data key); a result with no
value for the key forms the (testcase, no-value) group; a result with
several values belongs to every corresponding group. Each group's
survivor is its most recent member; the survivor set is ordered like any
query output. -/

/-- The values a result carries for one result-data key, in row order. -/
def valuesOf (k : String) (r : Result) : List String :=
  r.data.filterMap fun d => if d.key = k then some d.value else none

/-- A grouping key: testcase name plus the optional distinguishing value
(`none` is the distinct "no value" group). -/
abbrev GroupKey := String × Option String

/-- The grouping keys a result belongs to. Without `_distinct_on` the key
is just the testcase; with it, one key per value of the distinguishing
result-data key, or the no-value key when the result carries none. -/
def groupKeysOf (dk : Option String) (r : Result) : List GroupKey :=
  match dk with
  | none => [(r.testcase, none)]
  | some k =>
    match valuesOf k r with
    | [] => [(r.testcase, none)]
    | v :: vs => (v :: vs).map fun v => (r.testcase, some v)

/-- The members of one group among a result set. -/
def membersOf (dk : Option String) (rs : List Result) (gk : GroupKey) :
    List Result :=
  rs.filter fun r => gk ∈ groupKeysOf dk r

/-- Every grouping key arising from a result set, deduplicated. -/
def allKeys (dk : Option String) (rs : List Result) : List GroupKey :=
  ((rs.map (groupKeysOf dk)).flatten).dedup

/-- The most recent result of a list: greatest (`submit_time`, `id`). -/
def pickLatest : List Result → Option Result
  | [] => none
  | r :: rs => some (rs.foldl (fun acc x => if KeyLe acc x then x else acc) r)

/-- One survivor per group, duplicates removed (a result surviving in
several groups is listed once). -/
def latestSurvivors (dk : Option String) (rs : List Result) : List Result :=
  (((allKeys dk rs).filterMap fun gk => pickLatest (membersOf dk rs gk))).dedup

/-- The latest query (§4.3): apply the ordinary filters, resolve one
survivor per group, and order the survivors by `submit_time` descending
(`id` descending on ties). Requesting `_distinct_on` with no other filter
is rejected. -/
def latestQuery (db : DB) (fs : List Filter) (dk : Option String) :
    Except Err (List Result) :=
  if dk.isSome && fs.isEmpty then
    .error (.validation "Please, provide at least one filter beside _distinct_on")
  else
    .ok (sortDesc (latestSurvivors dk (db.results.filter (matchesAll fs))))

theorem pickFold_spec (rs : List Result) (acc : Result) :
    (rs.foldl (fun acc x => if KeyLe acc x then x else acc) acc = acc ∨
      rs.foldl (fun acc x => if KeyLe acc x then x else acc) acc ∈ rs) ∧
    KeyLe acc (rs.foldl (fun acc x => if KeyLe acc x then x else acc) acc) ∧
    ∀ x ∈ rs, KeyLe x (rs.foldl (fun acc x => if KeyLe acc x then x else acc) acc) := by
  induction rs generalizing acc with
  | nil => exact ⟨Or.inl rfl, keyLe_refl _, by simp⟩
  | cons y ys ih =>
    simp only [List.foldl_cons]
    by_cases hy : KeyLe acc y
    · rw [if_pos hy]
      obtain ⟨hmem, hacc, hall⟩ := ih y
      refine ⟨?_, keyLe_trans hy hacc, ?_⟩
      · rcases hmem with h | h
        · exact Or.inr (by simp [h])
        · exact Or.inr (List.mem_cons_of_mem _ h)
      · intro x hx
        rcases List.mem_cons.mp hx with rfl | hx
        · exact hacc
        · exact hall x hx
    · rw [if_neg hy]
      obtain ⟨hmem, hacc, hall⟩ := ih acc
      refine ⟨?_, hacc, ?_⟩
      · rcases hmem with h | h
        · exact Or.inl h
        · exact Or.inr (List.mem_cons_of_mem _ h)
      · intro x hx
        rcases List.mem_cons.mp hx with rfl | hx
        · rcases keyLe_total x acc with h | h
          · exact keyLe_trans h hacc
          · exact absurd h hy
        · exact hall x hx

theorem pickLatest_spec {l : List Result} {m : Result}
    (h : pickLatest l = some m) : m ∈ l ∧ ∀ x ∈ l, KeyLe x m := by
  match l with
  | [] => simp [pickLatest] at h
  | r :: rs =>
    simp only [pickLatest, Option.some.injEq] at h
    subst h
    obtain ⟨hmem, hacc, hall⟩ := pickFold_spec rs r
    refine ⟨?_, ?_⟩
    · rcases hmem with h | h
      · simp [h]
      · exact List.mem_cons_of_mem _ h
    · intro x hx
      rcases List.mem_cons.mp hx with rfl | hx
      · exact hacc
      · exact hall x hx

theorem pickLatest_isSome {l : List Result} (h : l ≠ []) :
    ∃ m, pickLatest l = some m := by
  match l with
  | [] => exact absurd rfl h
  | r :: rs => exact ⟨_, rfl⟩

/-- Core fact: every grouping key of every result in the set is
represented in the survivor list by a member of that group at least as
recent as the result. -/
theorem survivor_covers {dk : Option String} {rs : List Result} {r : Result}
    (hr : r ∈ rs) {gk : GroupKey} (hgk : gk ∈ groupKeysOf dk r) :
    ∃ s ∈ latestSurvivors dk rs, gk ∈ groupKeysOf dk s ∧ KeyLe r s := by
  have hkey : gk ∈ allKeys dk rs := by
    unfold allKeys
    rw [List.mem_dedup, List.mem_flatten]
    exact ⟨groupKeysOf dk r, List.mem_map_of_mem _ hr, hgk⟩
  have hrmem : r ∈ membersOf dk rs gk := by
    unfold membersOf
    rw [List.mem_filter]
    exact ⟨hr, by simpa using hgk⟩
  obtain ⟨m, hm⟩ := pickLatest_isSome (List.ne_nil_of_mem hrmem)
  obtain ⟨hmmem, hmax⟩ := pickLatest_spec hm
  have hmgrp : gk ∈ groupKeysOf dk m := by
    have := (List.mem_filter.mp hmmem).2
    simpa using this
  refine ⟨m, ?_, hmgrp, hmax r hrmem⟩
  unfold latestSurvivors
  rw [List.mem_dedup, List.mem_filterMap]
  exact ⟨gk, hkey, hm⟩

/-- Conversely, every survivor is a member of the result set and is the
most recent member of one of its groups. -/
theorem survivor_sound {dk : Option String} {rs : List Result} {s : Result}
    (hs : s ∈ latestSurvivors dk rs) :
    s ∈ rs ∧ ∃ gk ∈ groupKeysOf dk s, ∀ x ∈ membersOf dk rs gk, KeyLe x s := by
  unfold latestSurvivors at hs
  rw [List.mem_dedup, List.mem_filterMap] at hs
  obtain ⟨gk, _, hpick⟩ := hs
  obtain ⟨hmem, hmax⟩ := pickLatest_spec hpick
  have hin := List.mem_filter.mp hmem
  refine ⟨hin.1, gk, by simpa using hin.2, hmax⟩

theorem mem_latestSurvivors {dk : Option String} {rs : List Result}
    {s : Result} :
    s ∈ latestSurvivors dk rs ↔
      ∃ gk ∈ allKeys dk rs, pickLatest (membersOf dk rs gk) = some s := by
  unfold latestSurvivors
  rw [List.mem_dedup, List.mem_filterMap]

/-! ## Submit-time handling

Modelled from the spec and the behaviour asserted in
`tests/functest_api_v20.py` (the parser source `parsers/api_v2.py` is not
part of this tree): `submit_time` accepts epoch-milliseconds as an
integer or a numeric string, or an ISO-8601 datetime
`YYYY-MM-DDTHH:MM:SS.ffffff` with offset spelling "", "Z", "+00:00",
"+0000" or "+00"; the value is normalized to a naive-UTC datetime and
rendered with no timezone suffix; it defaults to the current time when
absent; anything else is rejected. -/

/-- A naive-UTC datetime. -/
structure DateTime where
  year : Nat
  month : Nat
  day : Nat
  hour : Nat
  minute : Nat
  second : Nat
  micro : Nat
deriving DecidableEq, Repr

/-- Field ranges of a datetime represent-able in the output format. -/
def ValidDT (t : DateTime) : Prop :=
  1970 ≤ t.year ∧ t.year < 10000 ∧ 1 ≤ t.month ∧ t.month ≤ 12 ∧
  1 ≤ t.day ∧ t.day ≤ 31 ∧ t.hour < 24 ∧ t.minute < 60 ∧ t.second < 60 ∧
  t.micro < 1000000

instance (t : DateTime) : Decidable (ValidDT t) := by
  unfold ValidDT; exact inferInstance

/-- Days from 1970-01-01 to a proleptic-Gregorian civil date. -/
def daysFromCivil (y m d : Nat) : Nat :=
  let yy := if m ≤ 2 then y - 1 else y
  let era := yy / 400
  let yoe := yy % 400
  let mp := (m + 9) % 12
  let doy := (153 * mp + 2) / 5 + d - 1
  let doe := yoe * 365 + yoe / 4 - yoe / 100 + doy
  era * 146097 + doe - 719468

/-- Civil date of a day count from 1970-01-01. -/
def civilFromDays (z0 : Nat) : Nat × Nat × Nat :=
  let z := z0 + 719468
  let era := z / 146097
  let doe := z % 146097
  let yoe := (doe - doe / 1460 + doe / 36524 - doe / 146096) / 365
  let y := yoe + era * 400
  let doy := doe - (365 * yoe + yoe / 4 - yoe / 100)
  let mp := (5 * doy + 2) / 153
  let d := doy - (153 * mp + 2) / 5 + 1
  let m := if mp < 10 then mp + 3 else mp - 9
  (if m ≤ 2 then y + 1 else y, m, d)

/-- The naive-UTC datetime of an epoch-milliseconds timestamp. -/
def fromMillis (n : Nat) : DateTime :=
  let s := n / 1000
  let days := s / 86400
  let rem := s % 86400
  let c := civilFromDays days
  ⟨c.1, c.2.1, c.2.2, rem / 3600, rem % 3600 / 60, rem % 60, n % 1000 * 1000⟩

/-- Microseconds since the epoch of a naive-UTC datetime. -/
def toMicros (t : DateTime) : Nat :=
  (daysFromCivil t.year t.month t.day * 86400 +
    t.hour * 3600 + t.minute * 60 + t.second) * 1000000 + t.micro

/-- The numeric value of one decimal digit character. -/
def digitVal (c : Char) : Nat := c.toNat - 48

/-- The number read from a fixed run of decimal digit characters. -/
def readNat (cs : List Char) : Nat :=
  cs.foldl (fun a c => 10 * a + digitVal c) 0

/-- The `YYYY-MM-DDTHH:MM:SS.ffffff` rendering of a datetime, as the
character list of the output string: naive UTC, no timezone suffix. -/
def renderIsoChars (t : DateTime) : List Char :=
  [Nat.digitChar (t.year / 1000 % 10), Nat.digitChar (t.year / 100 % 10),
   Nat.digitChar (t.year / 10 % 10), Nat.digitChar (t.year % 10), '-',
   Nat.digitChar (t.month / 10 % 10), Nat.digitChar (t.month % 10), '-',
   Nat.digitChar (t.day / 10 % 10), Nat.digitChar (t.day % 10), 'T',
   Nat.digitChar (t.hour / 10 % 10), Nat.digitChar (t.hour % 10), ':',
   Nat.digitChar (t.minute / 10 % 10), Nat.digitChar (t.minute % 10), ':',
   Nat.digitChar (t.second / 10 % 10), Nat.digitChar (t.second % 10), '.',
   Nat.digitChar (t.micro / 100000 % 10), Nat.digitChar (t.micro / 10000 % 10),
   Nat.digitChar (t.micro / 1000 % 10), Nat.digitChar (t.micro / 100 % 10),
   Nat.digitChar (t.micro / 10 % 10), Nat.digitChar (t.micro % 10)]

/-- The rendered submit time as a string. -/
def renderIso (t : DateTime) : String := String.mk (renderIsoChars t)

/-- The accepted timezone-offset spellings of an ISO-8601 submit time. -/
def allowedSuffixes : List (List Char) :=
  [[], ['Z'], ['+', '0', '0', ':', '0', '0'], ['+', '0', '0', '0', '0'],
   ['+', '0', '0']]

/-- Parse an ISO-8601 submit time: a strict 26-character
`YYYY-MM-DDTHH:MM:SS.ffffff` body followed by one of the accepted offset
spellings; the offset is dropped (normalization to naive UTC). -/
def parseIsoChars : List Char → Option DateTime
  | y1 :: y2 :: y3 :: y4 :: '-' :: o1 :: o2 :: '-' :: d1 :: d2 :: 'T' ::
      h1 :: h2 :: ':' :: i1 :: i2 :: ':' :: s1 :: s2 :: '.' ::
      f1 :: f2 :: f3 :: f4 :: f5 :: f6 :: rest =>
    if ([y1, y2, y3, y4, o1, o2, d1, d2, h1, h2, i1, i2, s1, s2,
          f1, f2, f3, f4, f5, f6].all Char.isDigit) &&
        decide (rest ∈ allowedSuffixes) then
      let t : DateTime :=
        ⟨readNat [y1, y2, y3, y4], readNat [o1, o2], readNat [d1, d2],
         readNat [h1, h2], readNat [i1, i2], readNat [s1, s2],
         readNat [f1, f2, f3, f4, f5, f6]⟩
      if ValidDT t then some t else none
    else none
  | _ => none

/-- A nonempty all-digit character list read as a number. -/
def charsToNat? (cs : List Char) : Option Nat :=
  if !cs.isEmpty && cs.all Char.isDigit then some (readNat cs) else none

/-- The `submit_time` field of a result submission: absent, a JSON
integer, or a JSON string. -/
inductive SubmitTimeInput where
  | absent
  | intMillis (n : Nat)
  | str (s : String)
deriving DecidableEq, Repr

/-- Parse the `submit_time` of a submission: absent defaults to the
current time; an integer is epoch milliseconds; a string is epoch
milliseconds when numeric, else an ISO-8601 datetime; anything else is a
validation error. -/
def parseSubmitTime (now : DateTime) : SubmitTimeInput → Except Err DateTime
  | .absent => .ok now
  | .intMillis n => .ok (fromMillis n)
  | .str s =>
    match charsToNat? s.data with
    | some n => .ok (fromMillis n)
    | none =>
      match parseIsoChars s.data with
      | some t => .ok t
      | none =>
        .error (.validation
          ("Expected timestamp in milliseconds or datetime (in format YYYY-MM-DDTHH:MM:SS.ffffff), got " ++ s))

/-! ## Result creation (§4.4; `resultsdb/controllers/api_v3.py`)

The testcase upsert follows `create_result` of
`resultsdb/controllers/api_v3.py` (query by name, create when absent,
overwrite `ref_url` only when a new one is supplied). The v2 endpoint
validation is modelled from the behaviour asserted in
`tests/functest_api_v20.py`: the outcome must be one of the configured
outcomes, a result-data key must not contain a colon, and a rejected
submission leaves the state untouched (the commit is atomic, §5). -/

/-- The configured result outcomes, as asserted by
`test_create_result_invalid_outcome` and the v2 landing page. -/
def allowedOutcomes : List String :=
  ["PASSED", "INFO", "FAILED", "NEEDS_INSPECTION", "AMAZING"]

/-- Upsert a testcase by name, per `api_v3.create_result`: create the row
when the name is absent; overwrite `ref_url` only when a new one is
supplied. -/
def upsertTestcase (tcs : List Testcase) (name : String)
    (refUrl : Option String) : List Testcase :=
  if tcs.any fun tc => tc.name == name then
    tcs.map fun tc =>
      if tc.name == name then
        { tc with refUrl := match refUrl with | some u => some u | none => tc.refUrl }
      else tc
  else
    tcs ++ [{ name := name, refUrl := refUrl }]

/-- Upsert possibly-unknown groups by uuid: any uuid not yet present is
created with no description and no `ref_url`. -/
def upsertGroups (gs : List Group) (uuids : List String) : List Group :=
  uuids.foldl
    (fun acc u =>
      if acc.any fun g => g.uuid == u then acc
      else acc ++ [{ uuid := u, description := none, refUrl := none }])
    gs

/-- A v2 result submission before validation. -/
structure PendingV2 where
  testcase : String
  testcaseRefUrl : Option String
  outcome : String
  note : Option String
  refUrl : Option String
  groups : List String
  data : List (String × String)
  submitTime : SubmitTimeInput
deriving DecidableEq, Repr

/-- The v2 `POST /results` operation: validate the testcase name, the
outcome, the submit time and the result-data keys, then upsert the
testcase and the groups and insert the result with a fresh id. A
validation failure persists nothing. -/
def createResultV2 (db : DB) (now : DateTime) (p : PendingV2) :
    Except Err (DB × Result) :=
  if p.testcase = "" then
    .error (.validation "testcase name must be non-empty")
  else if p.outcome ∉ allowedOutcomes then
    .error (.validation "must be one of: PASSED, INFO, FAILED, NEEDS_INSPECTION, AMAZING")
  else
    match parseSubmitTime now p.submitTime with
    | .error e => .error e
    | .ok t =>
      match p.data.find? fun kv => kv.1.data.contains ':' with
      | some kv => .error (.validation ("Colon not allowed in key name: " ++ kv.1))
      | none =>
        let r : Result :=
          ⟨db.nextId, p.testcase, p.outcome, toMicros t, p.note, p.refUrl,
           p.groups, p.data.map fun kv => ⟨kv.1, kv.2⟩⟩
        .ok (⟨upsertTestcase db.testcases p.testcase p.testcaseRefUrl,
              upsertGroups db.groups p.groups,
              db.results ++ [r], db.nextId + 1⟩, r)

/-- A v3 result submission (already validated by the schema layer). -/
structure V3Body where
  testcase : String
  testcaseRefUrl : Option String
  outcome : String
  note : Option String
  refUrl : Option String
  data : List (String × String)
deriving DecidableEq, Repr

/-- Embeds `create_result` of `resultsdb/controllers/api_v3.py`: upsert
the testcase, build the result with an empty group list, attach a
"username" data row for the authenticated user (when its name is
non-empty) before the caller-supplied pairs, and commit. The commit's
colon-key guard is modelled from the spec (§7). -/
def createResultV3 (db : DB) (now : DateTime) (user : String)
    (body : V3Body) : Except Err (DB × Result) :=
  let tcs := upsertTestcase db.testcases body.testcase body.testcaseRefUrl
  let data := (if user = "" then [] else [("username", user)]) ++ body.data
  match data.find? fun kv => kv.1.data.contains ':' with
  | some kv => .error (.validation ("Colon not allowed in key name: " ++ kv.1))
  | none =>
    let r : Result :=
      ⟨db.nextId, body.testcase, body.outcome, toMicros now, body.note,
       body.refUrl, [], data.map fun kv => ⟨kv.1, kv.2⟩⟩
    .ok (⟨tcs, db.groups, db.results ++ [r], db.nextId + 1⟩, r)

/-! ## The worked example of §8

The six results of `test_get_results_latest_distinct_on_more_specific_cases_3`:
each carries `item=grub`; submit times increase with the submission
index. -/

/-- A submission of the worked example: testcase, outcome, data pairs,
and the submission index (used as the submit time, in seconds). -/
def examplePending (tc outcome : String) (data : List (String × String))
    (i : Nat) : PendingV2 :=
  ⟨tc, none, outcome, none, none, [], data, .intMillis (1000 * i)⟩

/-- The database after the six submissions of the worked example. -/
def exampleDB : Except Err DB := do
  let (db, _) ← createResultV2 emptyDB (fromMillis 0)
    (examplePending "tc_1" "PASSED" [("item", "grub"), ("scenario", "s_1")] 1)
  let (db, _) ← createResultV2 db (fromMillis 0)
    (examplePending "tc_2" "PASSED" [("item", "grub"), ("scenario", "s_1")] 2)
  let (db, _) ← createResultV2 db (fromMillis 0)
    (examplePending "tc_2" "PASSED" [("item", "grub"), ("scenario", "s_2")] 3)
  let (db, _) ← createResultV2 db (fromMillis 0)
    (examplePending "tc_3" "PASSED" [("item", "grub")] 4)
  let (db, _) ← createResultV2 db (fromMillis 0)
    (examplePending "tc_1" "FAILED" [("item", "grub")] 5)
  let (db, _) ← createResultV2 db (fromMillis 0)
    (examplePending "tc_1" "INFO" [("item", "grub"), ("scenario", "s_1")] 6)
  pure db

/-- The projection the test asserts on: first `scenario` value (if any),
testcase name, outcome. -/
def latestProjection (r : Result) : Option String × String × String :=
  ((valuesOf "scenario" r).head?, r.testcase, r.outcome)

/-! ## Claims -/

/-- C1: for the six-Result worked example (tc_1/s_1@t1, tc_2/s_1@t2,
tc_2/s_2@t3, tc_3/absent@t4, tc_1/absent@t5[FAILED], tc_1/s_1@t6[INFO],
each carrying item=grub), a latest query filtered by item=grub with
`_distinct_on=scenario` returns exactly 5 results, ordered by survivor
submit time descending: (s_1,tc_1,INFO), (absent,tc_1,FAILED),
(absent,tc_3,PASSED), (s_2,tc_2,PASSED), (s_1,tc_2,PASSED). -/
theorem c1_latest_distinct_on_worked_example :
    (exampleDB.bind fun db =>
        latestQuery db [.dataEq "item" ["grub"]] (some "scenario")).map
      (List.map latestProjection) =
    .ok [(some "s_1", "tc_1", "INFO"), (none, "tc_1", "FAILED"),
         (none, "tc_3", "PASSED"), (some "s_2", "tc_2", "PASSED"),
         (some "s_1", "tc_2", "PASSED")] := by
  rfl

/-- C6: the filter `since=t1,t2` selects a persisted result iff
`t1 ≤ submit_time < t2` (inclusive lower bound, exclusive upper bound),
and `since=t1` alone selects it iff `submit_time ≥ t1`. -/
theorem c6_since_filter_halfopen (db : DB) (t1 t2 : Nat) (r : Result) :
    (r ∈ queryResults db [.since t1 (some t2)] ↔
      r ∈ db.results ∧ t1 ≤ r.submitTime ∧ r.submitTime < t2) ∧
    (r ∈ queryResults db [.since t1 none] ↔
      r ∈ db.results ∧ t1 ≤ r.submitTime) := by
  constructor <;> rw [mem_queryResults] <;>
    simp [matchesAll, matchesFilter, and_assoc]

/-- C7: a comma-separated value list under one filter key selects the
union of results matching any listed value (for `groups=u1,u2`, results
in either group), while distinct filter keys combine conjunctively: a
result is returned iff it satisfies every filter. -/
theorem c7_value_list_or_filter_keys_and (db : DB) (u1 u2 : String)
    (r : Result) (fs : List Filter) :
    (r ∈ queryResults db [.groups [u1, u2]] ↔
      r ∈ db.results ∧ ∃ g ∈ r.groups, g = u1 ∨ g = u2) ∧
    (r ∈ queryResults db fs ↔
      r ∈ db.results ∧ ∀ f ∈ fs, matchesFilter r f = true) := by
  constructor
  · rw [mem_queryResults]
    simp [matchesAll, matchesFilter, List.any_eq_true]
  · rw [mem_queryResults]
    simp [matchesAll, List.all_eq_true]

/-- C4: a latest query that supplies `_distinct_on` but no other filter
fails with a ValidationError asking for at least one more filter; a
latest query with no filters and no `_distinct_on` is not rejected: it
returns the latest result per testcase — every returned result is the
most recent of its testcase, every stored result's testcase is
represented, and no testcase is represented twice. -/
theorem c4_latest_no_filter_guard (db : DB) (k : String) :
    latestQuery db [] (some k) =
      .error (.validation "Please, provide at least one filter beside _distinct_on") ∧
    ∃ out, latestQuery db [] none = .ok out ∧
      (∀ r ∈ out, r ∈ db.results ∧
        ∀ x ∈ db.results, x.testcase = r.testcase → KeyLe x r) ∧
      (∀ x ∈ db.results, ∃ r ∈ out, r.testcase = x.testcase) ∧
      (∀ a ∈ out, ∀ b ∈ out, a.testcase = b.testcase → a = b) := by
  have hfilter : db.results.filter (matchesAll []) = db.results :=
    List.filter_eq_self.mpr fun a _ => rfl
  refine ⟨by simp [latestQuery], ?_⟩
  refine ⟨sortDesc (latestSurvivors none db.results), ?_, ?_, ?_, ?_⟩
  · simp [latestQuery, hfilter]
  · intro r hrout
    rw [mem_sortDesc] at hrout
    obtain ⟨hrs, gk, hgk, hmax⟩ := survivor_sound hrout
    refine ⟨hrs, fun x hx htc => ?_⟩
    simp only [groupKeysOf, List.mem_singleton] at hgk
    refine hmax x ?_
    unfold membersOf
    rw [List.mem_filter]
    exact ⟨hx, by simp [groupKeysOf, hgk, htc]⟩
  · intro x hx
    have hgk : ((x.testcase, none) : GroupKey) ∈ groupKeysOf none x := by
      simp [groupKeysOf]
    obtain ⟨s, hs, hsgk, _⟩ := survivor_covers hx hgk
    refine ⟨s, mem_sortDesc.mpr hs, ?_⟩
    simp only [groupKeysOf, List.mem_singleton, Prod.mk.injEq] at hsgk
    exact hsgk.1.symm
  · intro a ha b hb htc
    rw [mem_sortDesc, mem_latestSurvivors] at ha hb
    obtain ⟨gka, _, hpa⟩ := ha
    obtain ⟨gkb, _, hpb⟩ := hb
    have hamem := (pickLatest_spec hpa).1
    have hbmem := (pickLatest_spec hpb).1
    have hga : gka ∈ groupKeysOf none a := by
      have := (List.mem_filter.mp hamem).2
      simpa using this
    have hgb : gkb ∈ groupKeysOf none b := by
      have := (List.mem_filter.mp hbmem).2
      simpa using this
    simp only [groupKeysOf, List.mem_singleton] at hga hgb
    have : gka = gkb := by rw [hga, hgb, htc]
    rw [this, hpb] at hpa
    exact (Option.some.injEq _ _ ▸ hpa).symm

/-- C2: under a latest query with `_distinct_on=k`, a result with no
result-data entry for `k` is grouped under (testcase, no-value) — a
group disjoint from every present-value group — and is never dropped;
and a result with several entries for `k` competes as a member of each
of those value-groups simultaneously: for every grouping key of the
result, the output contains a survivor of that same group at least as
recent as the result. -/
theorem c2_distinct_on_groups (db : DB) (fs : List Filter) (k : String)
    (hfs : fs ≠ []) (out : List Result)
    (hout : latestQuery db fs (some k) = .ok out)
    (r : Result) (hr : r ∈ db.results) (hm : matchesAll fs r = true) :
    (valuesOf k r = [] →
      groupKeysOf (some k) r = [(r.testcase, none)] ∧
      ∀ x : Result, valuesOf k x ≠ [] →
        ∀ gk ∈ groupKeysOf (some k) r, gk ∉ groupKeysOf (some k) x) ∧
    (∀ gk ∈ groupKeysOf (some k) r,
      ∃ s ∈ out, gk ∈ groupKeysOf (some k) s ∧ KeyLe r s) := by
  have hempty : fs.isEmpty = false := by
    cases fs with
    | nil => exact absurd rfl hfs
    | cons f fs => rfl
  have hout2 :
      out = sortDesc (latestSurvivors (some k) (db.results.filter (matchesAll fs))) := by
    unfold latestQuery at hout
    rw [hempty] at hout
    simp at hout
    exact hout.symm
  constructor
  · intro hvals
    have hkeys : groupKeysOf (some k) r = [(r.testcase, none)] := by
      simp [groupKeysOf, hvals]
    refine ⟨hkeys, fun x hx gk hgk => ?_⟩
    rw [hkeys, List.mem_singleton] at hgk
    subst hgk
    intro hmem
    simp only [groupKeysOf] at hmem
    cases hvx : valuesOf k x with
    | nil => exact hx hvx
    | cons v vs =>
      rw [hvx] at hmem
      have hmem2 : (r.testcase, (none : Option String)) ∈
          (v :: vs).map fun w => (x.testcase, some w) := hmem
      obtain ⟨w, _, hw⟩ := List.mem_map.mp hmem2
      exact Option.noConfusion (congrArg Prod.snd hw)
  · intro gk hgk
    have hrmem : r ∈ db.results.filter (matchesAll fs) :=
      List.mem_filter.mpr ⟨hr, hm⟩
    obtain ⟨s, hs, hsgk, hle⟩ := survivor_covers hrmem hgk
    exact ⟨s, by rw [hout2, mem_sortDesc]; exact hs, hsgk, hle⟩

/-! ### Fixtures instantiating the general theorems -/

/-- A small persisted result used to instantiate the general theorems. -/
def sampleResult : Result :=
  ⟨1, "tc", "PASSED", 5, none, none, ["g1"], [⟨"item", "grub"⟩]⟩

/-- A one-result database used to instantiate the general theorems. -/
def sampleDB : DB :=
  ⟨[⟨"tc", none⟩], [⟨"g1", none, none⟩], [sampleResult], 2⟩

theorem parseSubmitTime_error_validation {now : DateTime}
    {inp : SubmitTimeInput} {e : Err}
    (h : parseSubmitTime now inp = .error e) : ∃ m, e = .validation m := by
  cases inp with
  | absent => simp [parseSubmitTime] at h
  | intMillis n => simp [parseSubmitTime] at h
  | str s =>
    simp only [parseSubmitTime] at h
    cases hc : charsToNat? s.data with
    | some n => rw [hc] at h; simp at h
    | none =>
      rw [hc] at h
      cases hp : parseIsoChars s.data with
      | some t => rw [hp] at h; simp at h
      | none =>
        rw [hp] at h
        simp only [Except.error.injEq] at h
        exact ⟨_, h.symm⟩

/-- C3 as stated is false: the outcome "FAKEOUTCOME", submitted in an
otherwise valid result, is rejected with a ValidationError naming the
closed outcome enumeration (as `test_create_result_invalid_outcome`
asserts), not persisted. -/
theorem c3_counterexample_fakeoutcome :
    createResultV2 emptyDB (fromMillis 0)
      ⟨"tc", none, "FAKEOUTCOME", none, none, [], [], .absent⟩ =
    .error (.validation
      "must be one of: PASSED, INFO, FAILED, NEEDS_INSPECTION, AMAZING") := by
  rfl

/-- C3 (amended): the outcome is a closed enumeration: a submission whose
outcome is not one of the configured outcomes (PASSED, INFO, FAILED,
NEEDS_INSPECTION, AMAZING) is rejected with a ValidationError, while any
configured outcome is accepted and persisted unchanged (given the other
fields are valid). -/
theorem c3_outcome_closed_enum (db : DB) (now : DateTime) (p : PendingV2) :
    (p.testcase ≠ "" → p.outcome ∉ allowedOutcomes →
      createResultV2 db now p =
        .error (.validation
          "must be one of: PASSED, INFO, FAILED, NEEDS_INSPECTION, AMAZING")) ∧
    (∀ t : DateTime, p.testcase ≠ "" → p.outcome ∈ allowedOutcomes →
      parseSubmitTime now p.submitTime = .ok t →
      (p.data.find? fun kv => kv.1.data.contains ':') = none →
      ∃ db2 r, createResultV2 db now p = .ok (db2, r) ∧
        r.outcome = p.outcome) := by
  constructor
  · intro h1 h2
    unfold createResultV2
    rw [if_neg h1, if_pos h2]
  · intro t h1 h2 hts hdata
    unfold createResultV2
    rw [if_neg h1, if_neg (not_not_intro h2), hts, hdata]
    exact ⟨_, _, rfl, rfl⟩

/-- Witness for C3 (amended): the custom configured outcome "AMAZING" is
accepted and returned unchanged, as `test_create_result_custom_outcome`
asserts. -/
theorem c3_outcome_closed_enum_witness :
    ∃ db2 r, createResultV2 emptyDB (fromMillis 0)
        ⟨"tc", none, "AMAZING", none, none, [], [("item", "grub")], .absent⟩ =
      .ok (db2, r) ∧ r.outcome = "AMAZING" :=
  (c3_outcome_closed_enum emptyDB (fromMillis 0)
      ⟨"tc", none, "AMAZING", none, none, [], [("item", "grub")], .absent⟩).2
    (fromMillis 0) (by decide) (by decide) (by rfl) (by rfl)

/-- C5: a submission containing a result-data key with a colon fails
with a ValidationError; nothing is persisted — an error return carries
no new database state, so the testcase/group upserts and the result
insertion of the success branch never become visible. -/
theorem c5_colon_key_rejected (db : DB) (now : DateTime) (p : PendingV2)
    (kv : String × String) (hkv : kv ∈ p.data)
    (hcolon : kv.1.data.contains ':' = true) :
    ∃ m, createResultV2 db now p = .error (.validation m) := by
  unfold createResultV2
  split
  · exact ⟨_, rfl⟩
  · split
    · exact ⟨_, rfl⟩
    · cases hts : parseSubmitTime now p.submitTime with
      | error e =>
        obtain ⟨m, hm⟩ := parseSubmitTime_error_validation hts
        exact ⟨m, by rw [hm]⟩
      | ok t =>
        cases hf : p.data.find? fun kv => kv.1.data.contains ':' with
        | some kv2 => exact ⟨_, rfl⟩
        | none =>
          exfalso
          have := List.find?_eq_none.mp hf kv hkv
          exact this hcolon

/-- Witness for C5: the colon-keyed submission of
`test_create_result_invalid_data` is rejected. -/
theorem c5_colon_key_rejected_witness :
    ∃ m, createResultV2 emptyDB (fromMillis 0)
        ⟨"tc", none, "PASSED", none, none, [],
         [("validkey", "1"), ("invalid:key", "2")], .absent⟩ =
      .error (.validation m) :=
  c5_colon_key_rejected emptyDB (fromMillis 0)
    ⟨"tc", none, "PASSED", none, none, [],
     [("validkey", "1"), ("invalid:key", "2")], .absent⟩
    ("invalid:key", "2") (by decide) (by decide)

/-- Witness for C2: the one-result database, filtered by item=grub with
`_distinct_on=scenario`; the result has no scenario entry. -/
theorem c2_distinct_on_groups_witness :
    (valuesOf "scenario" sampleResult = [] →
      groupKeysOf (some "scenario") sampleResult =
        [(sampleResult.testcase, none)] ∧
      ∀ x : Result, valuesOf "scenario" x ≠ [] →
        ∀ gk ∈ groupKeysOf (some "scenario") sampleResult,
          gk ∉ groupKeysOf (some "scenario") x) ∧
    (∀ gk ∈ groupKeysOf (some "scenario") sampleResult,
      ∃ s ∈ [sampleResult], gk ∈ groupKeysOf (some "scenario") s ∧
        KeyLe sampleResult s) :=
  c2_distinct_on_groups sampleDB [.dataEq "item" ["grub"]] "scenario"
    (List.cons_ne_nil _ _) [sampleResult] (by rfl) sampleResult
    (List.mem_singleton.mpr rfl) (by rfl)

theorem upsertTestcase_fresh {tcs : List Testcase} {name : String}
    (ru : Option String) (h : ∀ tc ∈ tcs, tc.name ≠ name) :
    upsertTestcase tcs name ru = tcs ++ [⟨name, ru⟩] := by
  have hc : (tcs.any fun tc => tc.name == name) = false := by
    rw [List.any_eq_false]
    intro tc htc
    simp only [beq_iff_eq]
    exact h tc htc
  unfold upsertTestcase
  rw [if_neg fun hcond => Bool.false_ne_true (hc ▸ hcond)]

theorem upsertTestcase_existing {tcs : List Testcase} {name : String}
    (ru : Option String) (h : ∃ tc ∈ tcs, tc.name = name) :
    upsertTestcase tcs name ru = tcs.map fun tc =>
      if tc.name == name then
        { tc with refUrl := match ru with | some u => some u | none => tc.refUrl }
      else tc := by
  have hc : (tcs.any fun tc => tc.name == name) = true := by
    rw [List.any_eq_true]
    obtain ⟨tc, htc, he⟩ := h
    exact ⟨tc, htc, by simp [he]⟩
  unfold upsertTestcase
  rw [if_pos hc]

/-- C10: every result created through the v3 `create_result` operation
with an authenticated user (non-empty user name) gets an extra
ResultData row with key "username" and the user's name as value,
inserted before the caller-supplied data pairs. -/
theorem c10_v3_username_row (db : DB) (now : DateTime) (user : String)
    (body : V3Body) (huser : user ≠ "")
    (hdata : (body.data.find? fun kv => kv.1.data.contains ':') = none) :
    ∃ db2 r, createResultV3 db now user body = .ok (db2, r) ∧
      r.data = ⟨"username", user⟩ :: body.data.map fun kv => ⟨kv.1, kv.2⟩ := by
  unfold createResultV3
  rw [if_neg huser]
  simp only [List.cons_append, List.nil_append]
  have hstep : List.find? (fun kv => kv.1.data.contains ':')
      (("username", user) :: body.data) =
      List.find? (fun kv => kv.1.data.contains ':') body.data := by
    apply List.find?_cons_of_neg
    intro hc
    have hc2 : ("username" : String).data.contains ':' = true := hc
    exact absurd hc2 (by decide)
  rw [hstep, hdata]
  exact ⟨_, _, rfl, rfl⟩

/-- Witness for C10: a submission by user "alice" with one data pair gets
the "username" row first. -/
theorem c10_v3_username_row_witness :
    ∃ db2 r, createResultV3 emptyDB (fromMillis 0) "alice"
        ⟨"tc", none, "PASSED", none, none, [("item", "grub")]⟩ =
      .ok (db2, r) ∧
      r.data = ⟨"username", "alice"⟩ ::
        [("item", "grub")].map fun kv => ResultData.mk kv.1 kv.2 :=
  c10_v3_username_row emptyDB (fromMillis 0) "alice"
    ⟨"tc", none, "PASSED", none, none, [("item", "grub")]⟩
    (by decide) (by rfl)

/-- The result row built by the v3 `create_result` for an anonymous
commit (empty user name). -/
def mkV3Result (db : DB) (now : DateTime) (b : V3Body) : Result :=
  ⟨db.nextId, b.testcase, b.outcome, toMicros now, b.note, b.refUrl, [],
   b.data.map fun kv => ⟨kv.1, kv.2⟩⟩

theorem createResultV3_ok_noUser {db : DB} {now : DateTime} {b : V3Body}
    (hd : (b.data.find? fun kv => kv.1.data.contains ':') = none) :
    createResultV3 db now "" b =
      .ok (⟨upsertTestcase db.testcases b.testcase b.testcaseRefUrl,
            db.groups, db.results ++ [mkV3Result db now b], db.nextId + 1⟩,
           mkV3Result db now b) := by
  unfold createResultV3
  rw [if_pos rfl]
  simp only [List.nil_append]
  rw [hd]
  rfl

/-- C9: testcase upsert is idempotent on name and last-write-wins on
`ref_url`: committing two results referencing the same not-yet-existing
testcase name creates exactly one testcase row, and the second commit,
supplying a different `ref_url`, updates that row in place (the row set
keeps its size and the single row named `name` carries the new URL). -/
theorem c9_testcase_upsert_idempotent (db : DB) (now1 now2 : DateTime)
    (b1 b2 : V3Body) (name u : String)
    (hfresh : ∀ tc ∈ db.testcases, tc.name ≠ name)
    (hb1 : b1.testcase = name) (hb2 : b2.testcase = name)
    (hru : b2.testcaseRefUrl = some u)
    (hd1 : (b1.data.find? fun kv => kv.1.data.contains ':') = none)
    (hd2 : (b2.data.find? fun kv => kv.1.data.contains ':') = none) :
    ∃ db1 r1 db2 r2,
      createResultV3 db now1 "" b1 = .ok (db1, r1) ∧
      createResultV3 db1 now2 "" b2 = .ok (db2, r2) ∧
      db1.testcases.filter (fun tc => tc.name == name) =
        [⟨name, b1.testcaseRefUrl⟩] ∧
      db2.testcases.filter (fun tc => tc.name == name) = [⟨name, some u⟩] ∧
      db2.testcases.length = db1.testcases.length := by
  have hup1 : upsertTestcase db.testcases b1.testcase b1.testcaseRefUrl =
      db.testcases ++ [⟨name, b1.testcaseRefUrl⟩] := by
    rw [hb1]
    exact upsertTestcase_fresh _ hfresh
  have hnil : db.testcases.filter (fun tc => tc.name == name) = [] :=
    List.filter_eq_nil_iff.mpr fun tc htc => by simpa using hfresh tc htc
  have hfilter1 :
      (upsertTestcase db.testcases b1.testcase b1.testcaseRefUrl).filter
        (fun tc => tc.name == name) = [⟨name, b1.testcaseRefUrl⟩] := by
    rw [hup1, List.filter_append, hnil]
    simp
  have hmem : (⟨name, b1.testcaseRefUrl⟩ : Testcase) ∈
      upsertTestcase db.testcases b1.testcase b1.testcaseRefUrl := by
    rw [hup1]
    exact List.mem_append_right _ (List.mem_singleton.mpr rfl)
  have hup2 : upsertTestcase
      (upsertTestcase db.testcases b1.testcase b1.testcaseRefUrl)
      b2.testcase b2.testcaseRefUrl =
      (upsertTestcase db.testcases b1.testcase b1.testcaseRefUrl).map
        fun tc => if tc.name == name then { tc with refUrl := some u } else tc := by
    rw [hb2, hru]
    exact upsertTestcase_existing _ ⟨_, hmem, rfl⟩
  have hpre : ∀ tc : Testcase,
      ((if tc.name == name then { tc with refUrl := some u } else tc).name
        == name) = (tc.name == name) := by
    intro tc
    by_cases h : tc.name == name
    · rw [if_pos h]
    · rw [if_neg h]
  have hfilter2 :
      (upsertTestcase
        (upsertTestcase db.testcases b1.testcase b1.testcaseRefUrl)
        b2.testcase b2.testcaseRefUrl).filter
        (fun tc => tc.name == name) = [⟨name, some u⟩] := by
    rw [hup2, List.filter_map]
    simp only [Function.comp_def]
    rw [List.filter_congr fun tc _ => (hpre tc : _)]
    rw [hfilter1]
    simp
  have hlen :
      (upsertTestcase
        (upsertTestcase db.testcases b1.testcase b1.testcaseRefUrl)
        b2.testcase b2.testcaseRefUrl).length =
      (upsertTestcase db.testcases b1.testcase b1.testcaseRefUrl).length := by
    rw [hup2, List.length_map]
  exact ⟨_, _, _, _, createResultV3_ok_noUser hd1, createResultV3_ok_noUser hd2,
    hfilter1, hfilter2, hlen⟩

/-- Witness for C9: two commits of testcase "tc_new", the second with
`ref_url` "u2". -/
theorem c9_testcase_upsert_idempotent_witness :
    ∃ db1 r1 db2 r2,
      createResultV3 emptyDB (fromMillis 0) ""
          ⟨"tc_new", some "u1", "PASSED", none, none, []⟩ = .ok (db1, r1) ∧
      createResultV3 db1 (fromMillis 0) ""
          ⟨"tc_new", some "u2", "PASSED", none, none, []⟩ = .ok (db2, r2) ∧
      db1.testcases.filter (fun tc => tc.name == "tc_new") =
        [⟨"tc_new", some "u1"⟩] ∧
      db2.testcases.filter (fun tc => tc.name == "tc_new") =
        [⟨"tc_new", some "u2"⟩] ∧
      db2.testcases.length = db1.testcases.length :=
  c9_testcase_upsert_idempotent emptyDB (fromMillis 0) (fromMillis 0)
    ⟨"tc_new", some "u1", "PASSED", none, none, []⟩
    ⟨"tc_new", some "u2", "PASSED", none, none, []⟩
    "tc_new" "u2" (by intro tc htc; cases htc) (by rfl) (by rfl) (by rfl)
    (by rfl) (by rfl)

/-! ## Submit-time normalization lemmas (C8) -/

theorem digitVal_digitChar {n : Nat} (h : n < 10) :
    digitVal (Nat.digitChar n) = n := by
  interval_cases n <;> rfl

theorem isDigit_digitChar {n : Nat} (h : n < 10) :
    (Nat.digitChar n).isDigit = true := by
  interval_cases n <;> rfl

theorem digitVal_digitChar_mod (n : Nat) :
    digitVal (Nat.digitChar (n % 10)) = n % 10 :=
  digitVal_digitChar (Nat.mod_lt _ (by omega))

theorem isDigit_digitChar_mod (n : Nat) :
    (Nat.digitChar (n % 10)).isDigit = true :=
  isDigit_digitChar (Nat.mod_lt _ (by omega))

theorem readNat_two {n : Nat} (h : n < 100) :
    readNat [Nat.digitChar (n / 10 % 10), Nat.digitChar (n % 10)] = n := by
  simp only [readNat, List.foldl_cons, List.foldl_nil, digitVal_digitChar_mod]
  omega

theorem readNat_four {n : Nat} (h : n < 10000) :
    readNat [Nat.digitChar (n / 1000 % 10), Nat.digitChar (n / 100 % 10),
             Nat.digitChar (n / 10 % 10), Nat.digitChar (n % 10)] = n := by
  simp only [readNat, List.foldl_cons, List.foldl_nil, digitVal_digitChar_mod]
  omega

theorem readNat_six {n : Nat} (h : n < 1000000) :
    readNat [Nat.digitChar (n / 100000 % 10), Nat.digitChar (n / 10000 % 10),
             Nat.digitChar (n / 1000 % 10), Nat.digitChar (n / 100 % 10),
             Nat.digitChar (n / 10 % 10), Nat.digitChar (n % 10)] = n := by
  simp only [readNat, List.foldl_cons, List.foldl_nil, digitVal_digitChar_mod]
  omega

/-- Parsing the rendered datetime followed by any accepted offset
spelling recovers the datetime: all five spellings normalize to the
same naive-UTC value. -/
theorem parseIso_render {t : DateTime} (h : ValidDT t) {sfx : List Char}
    (hs : sfx ∈ allowedSuffixes) :
    parseIsoChars (renderIsoChars t ++ sfx) = some t := by
  obtain ⟨h1, h2, h3, h4, h5, h6, h7, h8, h9, h10⟩ := h
  simp only [renderIsoChars, List.cons_append, List.nil_append]
  simp only [parseIsoChars]
  rw [if_pos (by
    simp only [List.all_cons, List.all_nil, isDigit_digitChar_mod,
      Bool.and_true, Bool.true_and]
    exact decide_eq_true hs)]
  rw [readNat_four h2, readNat_two (by omega : t.month < 100),
    readNat_two (by omega : t.day < 100), readNat_two (by omega : t.hour < 100),
    readNat_two (by omega : t.minute < 100),
    readNat_two (by omega : t.second < 100), readNat_six h10]
  rw [if_pos ⟨h1, h2, h3, h4, h5, h6, h7, h8, h9, h10⟩]

/-- A rendered datetime (with or without an offset suffix) is never read
as a plain epoch-milliseconds number: it contains a dash. -/
theorem charsToNat?_render (t : DateTime) (sfx : List Char) :
    charsToNat? (renderIsoChars t ++ sfx) = none := by
  unfold charsToNat?
  rw [if_neg]
  intro hcond
  rw [Bool.and_eq_true, List.all_eq_true] at hcond
  have hdash : ('-' : Char) ∈ renderIsoChars t ++ sfx := by
    simp [renderIsoChars]
  exact absurd (hcond.2 _ hdash) (by decide)

/-- C8: `submit_time` accepts epoch-milliseconds as an integer or a
numeric string (both normalize to the same value), accepts an ISO-8601
datetime in the offset spellings "", "Z", "+00:00", "+0000", "+00" (all
normalize to the same naive-UTC value, rendered with no timezone
suffix), defaults to the current time when absent, and rejects any other
format (such as the string "now") with a ValidationError; concretely,
1661324097123 ms renders as "2022-08-24T06:54:57.123000". -/
theorem c8_submit_time_normalization (now : DateTime) (n : Nat) (s : String)
    (t : DateTime) (sfx : List Char) :
    (parseSubmitTime now (.intMillis n) = .ok (fromMillis n)) ∧
    (charsToNat? s.data = some n →
      parseSubmitTime now (.str s) = .ok (fromMillis n)) ∧
    (ValidDT t → sfx ∈ allowedSuffixes →
      parseSubmitTime now (.str (String.mk (renderIsoChars t ++ sfx))) =
        .ok t) ∧
    (parseSubmitTime now .absent = .ok now) ∧
    (parseSubmitTime now (.str "now") = .error (.validation
      "Expected timestamp in milliseconds or datetime (in format YYYY-MM-DDTHH:MM:SS.ffffff), got now")) ∧
    (renderIso (fromMillis 1661324097123) = "2022-08-24T06:54:57.123000") := by
  refine ⟨rfl, ?_, ?_, rfl, by rfl, by rfl⟩
  · intro h
    simp only [parseSubmitTime]
    rw [h]
  · intro hv hsfx
    simp only [parseSubmitTime]
    rw [charsToNat?_render, parseIso_render hv hsfx]

/-- Witness for C8: the numeric string of the tests and an ISO string
with the "Z" offset both normalize as asserted. -/
theorem c8_submit_time_normalization_witness :
    parseSubmitTime (fromMillis 0) (.str "1661324097123") =
      .ok (fromMillis 1661324097123) ∧
    parseSubmitTime (fromMillis 0)
        (.str (String.mk (renderIsoChars ⟨2022, 8, 24, 6, 54, 57, 123456⟩ ++ ['Z']))) =
      .ok ⟨2022, 8, 24, 6, 54, 57, 123456⟩ :=
  ⟨(c8_submit_time_normalization (fromMillis 0) 1661324097123
      "1661324097123" ⟨2022, 8, 24, 6, 54, 57, 123456⟩ ['Z']).2.1 (by rfl),
   (c8_submit_time_normalization (fromMillis 0) 1661324097123
      "1661324097123" ⟨2022, 8, 24, 6, 54, 57, 123456⟩ ['Z']).2.2.1
     (by decide) (by decide)⟩

end ResultsDB
